import Mathlib

/-!
Verification development for the ollama-commit-generate CLI repository.

The repository is a Python tool that exports per-file git diffs and sends each
diff to a local model-serving HTTP endpoint.  The definitions below are a
shallow embedding of the relevant Python functions:

* subprocess execution and HTTP traffic are modelled by explicit environment
  parameters (a function from the command vector to the process behaviour, and
  a value describing the HTTP outcome);
* Python `str.replace`, `str.strip`, `str.splitlines`, `os.path.basename` and
  `os.path.join` are modelled by executable functions on `String` / `List Char`
  (`os.sep` is modelled as the `/` character, i.e. the POSIX platform the tool
  targets; `splitlines` is modelled on newline-separated git output, and
  `strip` on the ASCII whitespace characters Python strips);
* fallible operations (file reads, process spawns) are modelled with
  `Option` / `Except` / dedicated behaviour constructors.
-/

/-- Whitespace test matching the ASCII characters removed by Python `str.strip()`. -/
def isSpaceChar (c : Char) : Bool :=
  c = ' ' ∨ c = '\t' ∨ c = '\n' ∨ c = '\x0d' ∨ c = '\x0b' ∨ c = '\x0c'

/-- Strip leading and trailing whitespace from a character list. -/
def stripList (l : List Char) : List Char :=
  ((l.dropWhile isSpaceChar).reverse.dropWhile isSpaceChar).reverse

/-- Model of Python `str.strip()`. -/
def pyStrip (s : String) : String :=
  ⟨stripList s.data⟩

/-- Split a character list on newline characters (used to model `str.splitlines`
on git output, which is newline separated). -/
def splitOnNl : List Char → List (List Char)
  | [] => [[]]
  | c :: rest =>
    match splitOnNl rest with
    | [] => [[c]]
    | line :: more => if c = '\n' then [] :: line :: more else (c :: line) :: more

/-- Model of Python `str.splitlines()` on newline-separated text: the empty
string yields no lines. -/
def pySplitlines (s : String) : List String :=
  if s = "" then [] else (splitOnNl s.data).map (fun l => ⟨l⟩)

/-- Fuel-driven engine behind the model of Python `str.replace`: replace
leftmost non-overlapping occurrences of `pat` by `repl`.  The fuel argument
makes the recursion structural; callers pass the length of the subject list,
which always suffices because each step consumes at least one character. -/
def replaceFuel (pat repl : List Char) : Nat → List Char → List Char
  | _, [] => []
  | 0, s => s
  | fuel + 1, c :: rest =>
    if pat ≠ [] ∧ pat.isPrefixOf (c :: rest) then
      repl ++ replaceFuel pat repl fuel (rest.drop (pat.length - 1))
    else
      c :: replaceFuel pat repl fuel rest

/-- Replace leftmost non-overlapping occurrences of `pat` by `repl` in a list. -/
def replaceList (pat repl s : List Char) : List Char :=
  replaceFuel pat repl s.length s

/-- Model of Python `s.replace(pat, repl)` (for non-empty `pat`, the only way
the repository calls it). -/
def pyReplace (s pat repl : String) : String :=
  ⟨replaceList pat.data repl.data s.data⟩

/-- Model of Python `os.path.basename`: the part after the last `/`. -/
def pyBasename (s : String) : String :=
  ⟨(s.data.reverse.takeWhile (fun c => c ≠ '/')).reverse⟩

/-- Model of Python `os.path.join(a, b)` for a relative second component. -/
def pyJoin (a b : String) : String :=
  if a = "" then b
  else if a.data.getLast? = some '/' then a ++ b
  else a ++ "/" ++ b

/-- Code-point lexicographic comparison on character lists, the order Python
uses to sort lists of strings. -/
def listLeB : List Char → List Char → Bool
  | [], _ => true
  | _ :: _, [] => false
  | c :: cs, d :: ds =>
    if c.toNat < d.toNat then true
    else if d.toNat < c.toNat then false
    else listLeB cs ds

/-- Code-point lexicographic comparison on strings. -/
def strLeB (a b : String) : Bool :=
  listLeB a.data b.data

/-- Model of Python `sorted(set(l))`: deduplicate, then sort. -/
def sortedDedup (l : List String) : List String :=
  List.insertionSort (fun a b => strLeB a b = true) l.dedup

/-- Proposition that `s` begins with the string `pre`. -/
def strStarts (pre s : String) : Prop :=
  ∃ t, s = pre ++ t

/-- Decidable test that `s` begins with the string `pre`. -/
def strStartsB (pre s : String) : Bool :=
  pre.data.isPrefixOf s.data

/-- Behaviour of one external process invocation, as seen by
`run_git_command` in `src/_engine/git/command.py`: the process runs and
produces an exit code with output streams, the executable is missing
(`FileNotFoundError`), or spawning raises some other exception. -/
inductive ProcBehavior where
  | runs (code : Int) (stdout stderr : String)
  | notFound
  | raises (msg : String)
deriving DecidableEq

/-- Environment mapping a command argument vector to its process behaviour. -/
def GitEnv : Type := List String → ProcBehavior

/-- Embedding of `run_git_command` (src/_engine/git/command.py, lines 8-56):
returns `(returncode, stdout.strip(), stderr.strip())`, and `(1, "", msg)`
with a non-empty message when the executable is missing or spawning raises.
The Python function catches every exception, so the embedding is a total
function of the environment. -/
def run_git_command (env : GitEnv) (command : List String) : Int × String × String :=
  match env command with
  | .runs code out err => (code, pyStrip out, pyStrip err)
  | .notFound => (1, "", "Git command not found. Is Git installed and in your PATH?")
  | .raises msg =>
      (1, "", "Exception running command " ++ String.intercalate " " command ++ ": " ++ msg)

/-- Command listing staged files (src/_engine/git/files_controller.py, line 40). -/
def stagedCmd : List String := ["git", "diff", "--name-only", "--staged"]

/-- Command listing unstaged files (src/_engine/git/files_controller.py, line 49). -/
def unstagedCmd : List String := ["git", "diff", "--name-only"]

/-- Command listing the files of a commit (src/_engine/git/files_controller.py, line 30). -/
def diffTreeCmd (commit_hash : String) : List String :=
  ["git", "diff-tree", "--no-commit-id", "--name-only", "-r", commit_hash]

/-- Non-blank lines of a command's output, as selected by the generator
expressions `f for f in stdout.splitlines() if f.strip()`. -/
def nonBlankLines (s : String) : List String :=
  (pySplitlines s).filter (fun l => pyStrip l ≠ "")

/-- Embedding of `get_changed_files` (src/_engine/git/files_controller.py,
lines 11-63).  For a commit it lists the commit's files and returns `[]` when
the command fails; for uncommitted changes it unions the non-blank lines of
the staged and unstaged listings, using both outputs regardless of either
command's exit code, and returns the sorted deduplicated result. -/
def get_changed_files (env : GitEnv) (commit_hash : Option String) : List String :=
  match commit_hash with
  | some h =>
    let r := run_git_command env (diffTreeCmd h)
    if r.1 ≠ 0 then []
    else sortedDedup (nonBlankLines r.2.1)
  | none =>
    let rs := run_git_command env stagedCmd
    let ru := run_git_command env unstagedCmd
    sortedDedup (nonBlankLines rs.2.1 ++ nonBlankLines ru.2.1)

/-- Embedding of `clear_directory_content` (src/_engine/git/files_controller.py,
lines 66-99).  `mkdirOk` models `os.makedirs` succeeding, `listOk` models
`os.listdir` succeeding, `items` are the directory entries and `removeOk`
says whether removing an entry succeeds.  The result is the returned Bool
paired with the entries still present afterwards; removal failures are
skipped, and the function has no operation that removes the directory itself. -/
def clear_directory_content (mkdirOk listOk : Bool) (items : List String)
    (removeOk : String → Bool) : Bool × List String :=
  if mkdirOk = false then (false, items)
  else if listOk = false then (false, items)
  else (true, items.filter (fun i => removeOk i = false))

/-- Filesystem-safe diff file name (src/_engine/git/engine.py, line 85:
`file_path.replace(os.sep, "__")` with POSIX `os.sep`). -/
def safeFilename (file_path : String) : String :=
  pyReplace file_path "/" "__"

/-- Per-file diff command built by `generate_and_save_diff`
(src/_engine/git/engine.py, lines 88-107). -/
def diffCommand (commit_hash : Option String) (file_path : String) : List String :=
  match commit_hash with
  | some h => ["git", "diff", h ++ "^", h, "--", file_path]
  | none => ["git", "diff", "HEAD", "--", file_path]

/-- Output path of a saved diff (src/_engine/git/engine.py, line 123). -/
def diffOutputPath (output_dir file_path : String) : String :=
  pyJoin output_dir (safeFilename file_path ++ "_diff.txt")

/-- Observable result of one diff-export unit of work: the returned value of
`generate_and_save_diff`, the successful file writes it performed (path and
written text), and the git commands it ran. -/
structure UnitResult where
  saved : Option String
  writes : List (String × String)
  ran : List (List String)
deriving DecidableEq

/-- Embedding of `generate_and_save_diff` (src/_engine/git/engine.py,
lines 62-134).  `writeOk` models whether writing a given path succeeds (a
failing write raises inside the unit's `try` and yields `None`). -/
def generate_and_save_diff (env : GitEnv) (writeOk : String → Bool)
    (file_path output_dir : String) (commit_hash : Option String) : UnitResult :=
  if file_path = "" ∨ output_dir = "" then ⟨none, [], []⟩
  else
    let cmd := diffCommand commit_hash file_path
    let r := run_git_command env cmd
    if r.1 ≠ 0 then ⟨none, [], [cmd]⟩
    else if pyStrip r.2.1 = "" then ⟨none, [], [cmd]⟩
    else if writeOk (diffOutputPath output_dir file_path) then
      ⟨some (diffOutputPath output_dir file_path),
        [(diffOutputPath output_dir file_path, r.2.1)], [cmd]⟩
    else ⟨none, [], [cmd]⟩

/-- Commands run by `get_changed_files` for a given target. -/
def listerCommands (commit_hash : Option String) : List (List String) :=
  match commit_hash with
  | some h => [diffTreeCmd h]
  | none => [stagedCmd, unstagedCmd]

/-- Observable result of a whole export run: the returned list of saved diff
paths, the successful writes performed, and the git commands run. -/
structure ExportResult where
  saved : List String
  writes : List (String × String)
  ran : List (List String)
deriving DecidableEq

/-- Embedding of `export_git_diffs` (src/_engine/git/engine.py, lines 139-280).
The directory-preparation parameters feed `clear_directory_content`; when its
returned Bool is false the export aborts with an empty result before running
any git command.  The thread pool is modelled by processing the files in list
order: the source collects completion-order results, so only order-insensitive
facts (membership, emptiness) about `saved` are claimed of this model. -/
def export_git_diffs (env : GitEnv) (writeOk : String → Bool)
    (mkdirOk listOk : Bool) (items : List String) (removeOk : String → Bool)
    (commit_hash : Option String) (output_dir : String) : ExportResult :=
  if (clear_directory_content mkdirOk listOk items removeOk).1 = false then ⟨[], [], []⟩
  else
    let files := get_changed_files env commit_hash
    if files = [] then ⟨[], [], listerCommands commit_hash⟩
    else
      let units := files.map (fun f => generate_and_save_diff env writeOk f output_dir commit_hash)
      ⟨units.filterMap (fun u => u.saved),
        (units.map (fun u => u.writes)).flatten,
        listerCommands commit_hash ++ (units.map (fun u => u.ran)).flatten⟩

/-- Diff file name derived on export for a changed file: separators replaced by
double underscores, then the `_diff.txt` suffix (src/_engine/git/engine.py,
lines 85 and 123). -/
def encodeDiffName (file_path : String) : String :=
  safeFilename file_path ++ "_diff.txt"

/-- Display name derived during analysis from a diff file's base name: strip
`_diff.txt`, then restore separators (src/_engine/git/analysis.py, line 85). -/
def decodeDisplayName (name : String) : String :=
  pyReplace (pyReplace name "_diff.txt" "") "__" "/"

/-- Display filename computed by `analyze_diff_with_llm`
(src/_engine/git/analysis.py, line 85): base name, then decode. -/
def displayFilename (diff_file : String) : String :=
  decodeDisplayName (pyBasename diff_file)

/-- Outcome of the HTTP chat request as seen by the analyzer: a response with
status code, optional `message.content` field (`none` when the JSON lacks it)
and body text; a `requests` exception; or any other exception raised while
processing. -/
inductive HttpOutcome where
  | response (status : Nat) (content : Option String) (body : String)
  | requestError (msg : String)
  | otherError (msg : String)
deriving DecidableEq

/-- Embedding of `analyze_diff_with_llm` from src/_engine/git/analysis.py
(lines 69-175).  `fileRead` is the outcome of reading the diff file (`none`
models `FileNotFoundError`); the prompt built from the model name, the system
prompt and the file text only feeds the request, which the `http` outcome
abstracts.  On HTTP 200 the result is `message.content` (default
`"No analysis available"`) stripped; otherwise an error string. -/
def analyze_diff_with_llm (model_name diff_file : String)
    (system_prompt : Option String) (fileRead : Option String)
    (http : HttpOutcome) : String :=
  let filename := displayFilename diff_file
  match fileRead with
  | none => "Error: Diff file not found: " ++ diff_file
  | some _diff_content =>
    match http with
    | .response status content body =>
      if status = 200 then
        pyStrip (content.getD "No analysis available")
      else
        "Error: API Error (" ++ toString status ++ ") analyzing " ++ filename ++
          ". Details: " ++ body
    | .requestError msg =>
        "Error: Network or API request failed for " ++ filename ++ ": " ++ msg
    | .otherError msg =>
        "Error: An unexpected error occurred processing " ++ diff_file ++ ": " ++ msg

/-- Embedding of the `analyze_diff_with_llm` variant in src/main.py
(lines 329-413).  That variant has a single generic `except` handler, so any
exception (file read included, modelled by `fileRead = .error msg` carrying
`str(e)`) yields `"Error processing <file>: <msg>"`; on a non-200 status it
returns `"Error (<status>) analyzing <filename>"` without the response body,
and on HTTP 200 it returns `message.content` without stripping. -/
def main_analyze_diff_with_llm (model_name diff_file : String)
    (system_prompt : Option String) (fileRead : Except String String)
    (http : HttpOutcome) : String :=
  match fileRead with
  | .error msg => "Error processing " ++ diff_file ++ ": " ++ msg
  | .ok _diff_content =>
    match http with
    | .response status content _body =>
      if status = 200 then
        content.getD "No analysis available"
      else
        "Error (" ++ toString status ++ ") analyzing " ++ displayFilename diff_file
    | .requestError msg => "Error processing " ++ diff_file ++ ": " ++ msg
    | .otherError msg => "Error processing " ++ diff_file ++ ": " ++ msg

/-- Outcome of executing the body of `main()` in src/main.py. -/
inductive MainOutcome where
  | completed
  | interrupted
  | raised (msg : String)
deriving DecidableEq

/-- Embedding of the model-availability gate in `main()` (src/main.py,
lines 504-509): when `get_models` returns an empty list, `main` returns
normally right after displaying the warning; otherwise the run continues and
its outcome is that of the remainder (prompts, selection, analysis), which
the `rest` parameter abstracts. -/
def py_main (models : List String) (rest : MainOutcome) : MainOutcome :=
  if models.isEmpty then .completed else rest

/-- Embedding of the top-level handler (src/main.py, lines 554-562): normal
completion falls off the `try` and the process exits 0, `KeyboardInterrupt`
exits 0, any other exception exits 1. -/
def cli_exit_code (outcome : MainOutcome) : Nat :=
  match outcome with
  | .completed => 0
  | .interrupted => 0
  | .raised _ => 1

/-- Exit code of a whole CLI run given the model list and the outcome of the
rest of `main()`. -/
def run_cli (models : List String) (rest : MainOutcome) : Nat :=
  cli_exit_code (py_main models rest)

/-- Modelled from the spec: no code under src/ reads or writes the persisted
configuration file `_data/default.json`; the spec (section 6, "Persisted
configuration", and section 2, Orchestrator) describes a JSON file holding
`{"default_ollama_model": "<name>"}` read at startup and a resolution order
explicit flag, then saved default, then interactive selection.  `resolve_model`
is that resolution. -/
def resolve_model (flag saved interactive : Option String) : Option String :=
  match flag with
  | some m => some m
  | none =>
    match saved with
    | some m => some m
    | none => interactive

/-- Modelled from the spec: the configuration file is written exactly when the
model was newly chosen interactively (neither the flag nor the saved default
supplied it) and the user opts to save it as default; the written content is
the chosen model name. -/
def config_file_written (flag saved interactive : Option String)
    (optsSave : Bool) : Option String :=
  match flag with
  | some _ => none
  | none =>
    match saved with
    | some _ => none
    | none => if optsSave then interactive else none

/-- Specification-side recursive form of the separator encoding
`replace("/", "__")`: each `/` becomes two underscores.  Proved equal to the
`pyReplace` translation below and used to analyse the round-trip claim. -/
def encB : List Char → List Char
  | [] => []
  | c :: rest => if c = '/' then '_' :: '_' :: encB rest else c :: encB rest

/-- Check that a character list never has an underscore immediately followed
by another underscore or by a separator.  Paths violating this are exactly
those on which the double-underscore encoding loses information. -/
def sepSafeB : List Char → Bool
  | [] => true
  | [_] => true
  | a :: b :: rest =>
    if a = '_' ∧ (b = '_' ∨ b = '/') then false else sepSafeB (b :: rest)

/-- Decidable substring test: does `pat` occur contiguously in the list. -/
def containsB (pat : List Char) : List Char → Bool
  | [] => pat.isEmpty
  | c :: rest => pat.isPrefixOf (c :: rest) || containsB pat rest

/-- Proposition that `pat` occurs contiguously inside `s`. -/
def occursIn (pat s : List Char) : Prop :=
  ∃ a b, s = a ++ pat ++ b

/-- A pattern is borderless when no proper non-empty prefix of it is also a
suffix of it; such a pattern cannot straddle the boundary of `xs ++ pat`. -/
def Borderless (pat : List Char) : Prop :=
  ∀ k, k < pat.length → 0 < k → pat.take k ≠ pat.drop (pat.length - k)

/-- Character list of the reserved suffix `_diff.txt` with its head exposed. -/
def dPat : List Char := '_' :: "diff.txt".data

/-- Character list of `/diff.txt`: a path containing this encodes to a name in
which the reserved suffix appears early and is wrongly stripped on decode. -/
def sPat : List Char := '/' :: "diff.txt".data

/-- Concrete environment for exercising the exporter: the unstaged listing
names two files, the diff command for `bad.py` fails with a non-zero exit
code, and the diff command for `good.py` succeeds with a non-empty diff. -/
def c3Env : GitEnv := fun cmd =>
  if cmd = unstagedCmd then .runs 0 "bad.py\ngood.py" ""
  else if cmd = stagedCmd then .runs 0 "" ""
  else if cmd = diffCommand none "good.py" then
    .runs 0 "diff --git a/good.py b/good.py" ""
  else if cmd = diffCommand none "bad.py" then .runs 1 "" "fatal: bad path"
  else .runs 0 "" ""

/-- Concrete environment in which every diff command produces empty output. -/
def emptyDiffEnv : GitEnv := fun cmd =>
  if cmd = unstagedCmd then .runs 0 "a.py" "" else .runs 0 "" ""

theorem strStarts_iff (pre s : String) : strStarts pre s ↔ strStartsB pre s = true := by
  rw [strStartsB, List.isPrefixOf_iff_prefix]
  constructor
  · rintro ⟨t, rfl⟩
    exact ⟨t.data, (String.data_append pre t).symm⟩
  · rintro ⟨l, hl⟩
    refine ⟨⟨l⟩, String.ext ?_⟩
    rw [String.data_append]
    exact hl.symm

theorem strStarts_append_of {pre a : String} (h : strStarts pre a) (b : String) :
    strStarts pre (a ++ b) := by
  obtain ⟨t, rfl⟩ := h
  exact ⟨t ++ b, String.append_assoc pre t b⟩

theorem strAppend_ne_empty_left (a : String) (b : String) (h : a ≠ "") : a ++ b ≠ "" := by
  intro hc
  apply h
  have hd := congrArg String.data hc
  rw [String.data_append] at hd
  have hnil : a.data = [] := (List.append_eq_nil.mp hd).1
  exact String.ext (by simpa using hnil)

theorem listLeB_total : ∀ l m : List Char, listLeB l m = true ∨ listLeB m l = true := by
  intro l
  induction l with
  | nil => intro m; left; rfl
  | cons c cs ih =>
    intro m
    cases m with
    | nil => right; rfl
    | cons d ds =>
      rcases Nat.lt_trichotomy c.toNat d.toNat with h | h | h
      · left; simp [listLeB, h]
      · rcases ih ds with h2 | h2
        · left; simp [listLeB, h, h2]
        · right; simp [listLeB, h.symm, h2]
      · right; simp [listLeB, h]

theorem listLeB_cons_iff {c d : Char} {cs ds : List Char} :
    listLeB (c :: cs) (d :: ds) = true ↔
      (c.toNat < d.toNat ∨ (c.toNat = d.toNat ∧ listLeB cs ds = true)) := by
  simp only [listLeB]
  split_ifs with h1 h2
  · simp [h1]
  · simp
    omega
  · have he : c.toNat = d.toNat := by omega
    simp [he]

theorem listLeB_trans :
    ∀ l m n : List Char, listLeB l m = true → listLeB m n = true → listLeB l n = true := by
  intro l
  induction l with
  | nil => intro m n _ _; rfl
  | cons c cs ih =>
    intro m n h1 h2
    cases m with
    | nil => simp [listLeB] at h1
    | cons d ds =>
      cases n with
      | nil => simp [listLeB] at h2
      | cons e es =>
        rw [listLeB_cons_iff] at h1 h2 ⊢
        rcases h1 with h1 | ⟨h1e, h1r⟩
        · rcases h2 with h2 | ⟨h2e, h2r⟩
          · left; omega
          · left; omega
        · rcases h2 with h2 | ⟨h2e, h2r⟩
          · left; omega
          · right; exact ⟨by omega, ih ds es h1r h2r⟩

instance : IsTotal String (fun a b => strLeB a b = true) :=
  ⟨fun a b => listLeB_total a.data b.data⟩

instance : IsTrans String (fun a b => strLeB a b = true) :=
  ⟨fun a b c => listLeB_trans a.data b.data c.data⟩

/-- C7: `run_git_command` returns a triple of exit code, stdout text and
stderr text for every behaviour of the spawned process — the Python function
catches `FileNotFoundError` and every other exception, so the embedding is a
total function and nothing escapes its boundary.  When the executable cannot
be located or the process cannot be started it returns exit code 1, empty
stdout, and a non-empty error message in stderr; when the process runs it
returns the exit code and the stripped output streams. -/
theorem run_git_command_total_contract (env : GitEnv) (command : List String) :
    (env command = ProcBehavior.notFound →
      run_git_command env command =
        (1, "", "Git command not found. Is Git installed and in your PATH?") ∧
      (run_git_command env command).2.2 ≠ "") ∧
    (∀ msg, env command = ProcBehavior.raises msg →
      (run_git_command env command).1 = 1 ∧ (run_git_command env command).2.1 = "" ∧
      (run_git_command env command).2.2 ≠ "") ∧
    (∀ code out err, env command = ProcBehavior.runs code out err →
      run_git_command env command = (code, pyStrip out, pyStrip err)) := by
  refine ⟨?_, ?_, ?_⟩
  · intro h
    have he : run_git_command env command =
        (1, "", "Git command not found. Is Git installed and in your PATH?") := by
      rw [run_git_command, h]
    exact ⟨he, by rw [he]; decide⟩
  · intro msg h
    rw [run_git_command, h]
    refine ⟨rfl, rfl, ?_⟩
    exact strAppend_ne_empty_left _ _
      (strAppend_ne_empty_left _ _ (strAppend_ne_empty_left _ _ (by decide)))
  · intro code out err h
    rw [run_git_command, h]

/-- C7 witness: the contract applied to concrete missing-executable and
failed-spawn environments. -/
theorem run_git_command_total_contract_witness :
    run_git_command (fun _ => ProcBehavior.notFound) ["git", "status"] =
      (1, "", "Git command not found. Is Git installed and in your PATH?") ∧
    (run_git_command (fun _ => ProcBehavior.raises "spawn failed") ["git", "status"]).1 = 1 ∧
    (run_git_command (fun _ => ProcBehavior.raises "spawn failed") ["git", "status"]).2.1 = "" ∧
    (run_git_command (fun _ => ProcBehavior.raises "spawn failed") ["git", "status"]).2.2 ≠ "" :=
  ⟨((run_git_command_total_contract (fun _ => ProcBehavior.notFound) ["git", "status"]).1 rfl).1,
    ((run_git_command_total_contract (fun _ => ProcBehavior.raises "spawn failed")
      ["git", "status"]).2.1 "spawn failed" rfl)⟩

/-- C10: `clear_directory_content` returns True whenever `os.makedirs` and
`os.listdir` succeed, regardless of per-item removal failures (those are
printed and skipped and the loop continues); consequently a True return does
not guarantee the directory is empty afterwards, witnessed by a directory
whose single entry fails to be removed and is still present. -/
theorem clear_directory_content_true_despite_failures :
    (∀ (items : List String) (removeOk : String → Bool),
      (clear_directory_content true true items removeOk).1 = true) ∧
    (∀ (mkdirOk listOk : Bool) (items : List String) (removeOk : String → Bool),
      (clear_directory_content mkdirOk listOk items removeOk).1 = true ↔
        mkdirOk = true ∧ listOk = true) ∧
    ((clear_directory_content true true ["leftover.txt"] (fun _ => false)).1 = true ∧
      (clear_directory_content true true ["leftover.txt"] (fun _ => false)).2 =
        ["leftover.txt"]) := by
  refine ⟨?_, ?_, by decide⟩
  · intro items removeOk
    simp [clear_directory_content]
  · intro mkdirOk listOk items removeOk
    cases mkdirOk <;> cases listOk <;> simp [clear_directory_content]

/-- C8 counterexample: when no models are available, `main()` returns normally
right after the warning (src/main.py, line 509), so the process exits with
code 0, not the exit code 1 the claim requires for this fatal setup error —
even when the abstracted remainder of `main` would have raised. -/
theorem cli_no_models_exit_code_counterexample :
    run_cli [] (MainOutcome.raised "unreachable") = 0 ∧
    ¬ run_cli [] (MainOutcome.raised "unreachable") = 1 := by decide

/-- C8 amended: the CLI exits 0 on normal completion and on keyboard
interrupt, exits 1 only when an unexpected exception reaches the top-level
handler, and exits 0 — not 1 — when no models are available, because `main`
then returns normally before the rest of the run. -/
theorem cli_exit_codes_amended :
    (∀ msg : String, cli_exit_code MainOutcome.completed = 0 ∧
      cli_exit_code MainOutcome.interrupted = 0 ∧
      cli_exit_code (MainOutcome.raised msg) = 1) ∧
    (∀ rest : MainOutcome, py_main [] rest = MainOutcome.completed ∧ run_cli [] rest = 0) ∧
    (∀ (models : List String) (rest : MainOutcome), models ≠ [] →
      run_cli models rest = cli_exit_code rest) := by
  refine ⟨fun msg => ⟨rfl, rfl, rfl⟩, fun rest => ⟨rfl, rfl⟩, ?_⟩
  intro models rest h
  cases models with
  | nil => exact absurd rfl h
  | cons m ms => rfl

/-- C8 amended witness: with a model installed, the exit code is that of the
remainder of the run; an unexpected exception there exits 1. -/
theorem cli_exit_codes_amended_witness :
    (["llama3"] : List String) ≠ [] ∧ run_cli ["llama3"] (MainOutcome.raised "boom") = 1 :=
  ⟨by decide, by
    have h := cli_exit_codes_amended.2.2 ["llama3"] (MainOutcome.raised "boom") (by decide)
    simpa using h⟩

/-- C9 (modelled from the spec; no configuration-file code exists under src/):
the model resolution prefers the explicit flag, then the saved default from
the JSON configuration file, then the interactive selection; the file is
written exactly when the model was newly chosen interactively and the user
opted to save it. -/
theorem resolve_model_precedence :
    ∀ (flag saved interactive : Option String) (optsSave : Bool),
    (∀ m, flag = some m → resolve_model flag saved interactive = some m) ∧
    (flag = none → ∀ m, saved = some m → resolve_model flag saved interactive = some m) ∧
    (flag = none → saved = none → resolve_model flag saved interactive = interactive) ∧
    (flag = none → saved = none →
      config_file_written flag saved interactive true = interactive) ∧
    (config_file_written flag saved interactive false = none) ∧
    (∀ m, flag = some m → config_file_written flag saved interactive optsSave = none) ∧
    (flag = none → ∀ m, saved = some m →
      config_file_written flag saved interactive optsSave = none) := by
  intro flag saved interactive optsSave
  cases flag <;> cases saved <;> cases optsSave <;>
    simp [resolve_model, config_file_written]

/-- C9 witness: concrete resolutions — flag wins over a saved default, the
saved default wins over the interactive choice, the interactive choice is
used last and written when the user opts to save. -/
theorem resolve_model_precedence_witness :
    resolve_model (some "flagged") (some "saved") (some "picked") = some "flagged" ∧
    resolve_model none (some "saved") (some "picked") = some "saved" ∧
    resolve_model none none (some "picked") = some "picked" ∧
    config_file_written none none (some "picked") true = some "picked" :=
  ⟨(resolve_model_precedence (some "flagged") (some "saved") (some "picked") true).1
      "flagged" rfl,
    (resolve_model_precedence none (some "saved") (some "picked") true).2.1 rfl "saved" rfl,
    (resolve_model_precedence none none (some "picked") true).2.2.1 rfl rfl,
    (resolve_model_precedence none none (some "picked") true).2.2.2.1 rfl rfl⟩

/-- C5: for the uncommitted target, `get_changed_files` returns the sorted
deduplicated union of the non-blank output lines of the staged listing and
the unstaged listing; the exit codes of the two commands never enter the
computation, so a failing command simply contributes whatever (typically
empty) output it produced and the partial result of the other command is
preserved; the result is empty exactly when neither output has a non-blank
line. -/
theorem get_changed_files_uncommitted_union (env : GitEnv) :
    List.Sorted (fun a b => strLeB a b = true) (get_changed_files env none) ∧
    (get_changed_files env none).Nodup ∧
    (∀ x, x ∈ get_changed_files env none ↔
      ((x ∈ pySplitlines (run_git_command env stagedCmd).2.1 ∨
        x ∈ pySplitlines (run_git_command env unstagedCmd).2.1) ∧ pyStrip x ≠ "")) ∧
    (get_changed_files env none = [] ↔
      ∀ x, (x ∈ pySplitlines (run_git_command env stagedCmd).2.1 ∨
        x ∈ pySplitlines (run_git_command env unstagedCmd).2.1) → pyStrip x = "") := by
  have hmem : ∀ x, x ∈ get_changed_files env none ↔
      ((x ∈ pySplitlines (run_git_command env stagedCmd).2.1 ∨
        x ∈ pySplitlines (run_git_command env unstagedCmd).2.1) ∧ pyStrip x ≠ "") := by
    intro x
    show x ∈ sortedDedup _ ↔ _
    rw [sortedDedup, (List.perm_insertionSort _ _).mem_iff, List.mem_dedup,
      List.mem_append, nonBlankLines, nonBlankLines, List.mem_filter, List.mem_filter]
    simp only [decide_eq_true_eq]
    tauto
  refine ⟨List.sorted_insertionSort _ _,
    ((List.perm_insertionSort _ _).nodup_iff).mpr (List.nodup_dedup _), hmem, ?_⟩
  rw [List.eq_nil_iff_forall_not_mem]
  constructor
  · intro h x hx
    by_contra hne
    exact h x ((hmem x).mpr ⟨hx, hne⟩)
  · intro h x hx
    obtain ⟨hor, hne⟩ := (hmem x).mp hx
    exact hne (h x hor)

/-- C4: directory preparation runs first — when every removal succeeds it
leaves the directory existing but empty (the model has no operation removing
the directory itself) — and when preparation reports failure the whole export
returns an empty list without running a single git command, generating a
diff, or performing a write. -/
theorem export_preparation_gate :
    (∀ items : List String,
      clear_directory_content true true items (fun _ => true) = (true, [])) ∧
    (∀ (env : GitEnv) (writeOk : String → Bool) (mkdirOk listOk : Bool)
      (items : List String) (removeOk : String → Bool)
      (commit_hash : Option String) (output_dir : String),
      (clear_directory_content mkdirOk listOk items removeOk).1 = false →
        export_git_diffs env writeOk mkdirOk listOk items removeOk commit_hash output_dir =
          ⟨[], [], []⟩) := by
  constructor
  · intro items
    simp [clear_directory_content]
  · intro env writeOk mkdirOk listOk items removeOk commit_hash output_dir h
    rw [export_git_diffs, if_pos h]

/-- C4 witness: with a failing `os.makedirs`, preparation reports failure and
the export aborts with no saved paths, no writes, and no commands run. -/
theorem export_preparation_gate_witness :
    (clear_directory_content false true ["old_diff.txt"] (fun _ => true)).1 = false ∧
    export_git_diffs c3Env (fun _ => true) false true ["old_diff.txt"] (fun _ => true)
      none "temp_diffs" = ⟨[], [], []⟩ :=
  ⟨by decide,
    export_preparation_gate.2 c3Env (fun _ => true) false true ["old_diff.txt"]
      (fun _ => true) none "temp_diffs" (by decide)⟩

/-- C3: a unit whose per-file diff command exits non-zero yields no saved
path, and it does not abort its sibling units — any other changed file whose
diff command exits zero with a non-empty diff (and whose write succeeds) still
has its derived path in the exporter's returned list. -/
theorem export_isolates_failing_units
    (env : GitEnv) (writeOk : String → Bool) (items : List String)
    (removeOk : String → Bool) (commit_hash : Option String) (output_dir : String)
    (f g : String)
    (hdir : output_dir ≠ "")
    (hf : (run_git_command env (diffCommand commit_hash f)).1 ≠ 0)
    (hg : g ∈ get_changed_files env commit_hash)
    (hgne : g ≠ "")
    (hgcode : (run_git_command env (diffCommand commit_hash g)).1 = 0)
    (hgdiff : pyStrip (run_git_command env (diffCommand commit_hash g)).2.1 ≠ "")
    (hgw : writeOk (diffOutputPath output_dir g) = true) :
    (generate_and_save_diff env writeOk f output_dir commit_hash).saved = none ∧
    diffOutputPath output_dir g ∈
      (export_git_diffs env writeOk true true items removeOk commit_hash output_dir).saved := by
  have hgen : (generate_and_save_diff env writeOk g output_dir commit_hash).saved =
      some (diffOutputPath output_dir g) := by
    rw [generate_and_save_diff]
    rw [if_neg (by simp [hgne, hdir])]
    simp only [hgcode, hgdiff, hgw]
    simp
  constructor
  · rw [generate_and_save_diff]
    by_cases h0 : f = "" ∨ output_dir = ""
    · rw [if_pos h0]
    · rw [if_neg h0]
      rw [if_pos hf]
  · rw [export_git_diffs]
    rw [if_neg (by simp [clear_directory_content])]
    have hne : get_changed_files env commit_hash ≠ [] := List.ne_nil_of_mem hg
    rw [if_neg hne]
    simp only [List.mem_filterMap]
    refine ⟨generate_and_save_diff env writeOk g output_dir commit_hash, ?_, hgen⟩
    exact List.mem_map.mpr ⟨g, hg, rfl⟩

/-- C3 witness: in the concrete environment, the diff command for `bad.py`
fails, yet `good.py` is still exported and its path is in the result. -/
theorem export_isolates_failing_units_witness :
    (run_git_command c3Env (diffCommand none "bad.py")).1 ≠ 0 ∧
    "good.py" ∈ get_changed_files c3Env none ∧
    (generate_and_save_diff c3Env (fun _ => true) "bad.py" "temp_diffs" none).saved = none ∧
    diffOutputPath "temp_diffs" "good.py" ∈
      (export_git_diffs c3Env (fun _ => true) true true [] (fun _ => true)
        none "temp_diffs").saved := by
  have h := export_isolates_failing_units c3Env (fun _ => true) [] (fun _ => true)
    none "temp_diffs" "bad.py" "good.py" (by decide) (by decide) (by decide)
    (by decide) (by decide) (by decide) (by decide)
  exact ⟨by decide, by decide, h.1, h.2⟩

theorem generate_result_cases (env : GitEnv) (writeOk : String → Bool)
    (f output_dir : String) (commit_hash : Option String) :
    ((generate_and_save_diff env writeOk f output_dir commit_hash).saved = none ∧
      (generate_and_save_diff env writeOk f output_dir commit_hash).writes = []) ∨
    (¬(f = "" ∨ output_dir = "") ∧
      (run_git_command env (diffCommand commit_hash f)).1 = 0 ∧
      pyStrip (run_git_command env (diffCommand commit_hash f)).2.1 ≠ "" ∧
      writeOk (diffOutputPath output_dir f) = true ∧
      generate_and_save_diff env writeOk f output_dir commit_hash =
        ⟨some (diffOutputPath output_dir f),
          [(diffOutputPath output_dir f,
            (run_git_command env (diffCommand commit_hash f)).2.1)],
          [diffCommand commit_hash f]⟩) := by
  simp only [generate_and_save_diff]
  split_ifs with h1 h2 h3 h4
  · exact Or.inl ⟨rfl, rfl⟩
  · exact Or.inl ⟨rfl, rfl⟩
  · exact Or.inl ⟨rfl, rfl⟩
  · exact Or.inr ⟨h1, not_not.mp h2, h3, h4, rfl⟩
  · exact Or.inl ⟨rfl, rfl⟩

/-- C6: a diff file is written only when the diff text is non-empty — a unit
whose diff command output strips to the empty string saves nothing and writes
nothing — and every path the exporter returns was written, with non-empty
diff text, by its unit. -/
theorem export_saved_paths_written_nonempty :
    (∀ (env : GitEnv) (writeOk : String → Bool) (f output_dir : String)
      (commit_hash : Option String),
      pyStrip (run_git_command env (diffCommand commit_hash f)).2.1 = "" →
        (generate_and_save_diff env writeOk f output_dir commit_hash).saved = none ∧
        (generate_and_save_diff env writeOk f output_dir commit_hash).writes = []) ∧
    (∀ (env : GitEnv) (writeOk : String → Bool) (mkdirOk listOk : Bool)
      (items : List String) (removeOk : String → Bool)
      (commit_hash : Option String) (output_dir p : String),
      p ∈ (export_git_diffs env writeOk mkdirOk listOk items removeOk
        commit_hash output_dir).saved →
      ∃ c, (p, c) ∈ (export_git_diffs env writeOk mkdirOk listOk items removeOk
        commit_hash output_dir).writes ∧ pyStrip c ≠ "") := by
  constructor
  · intro env writeOk f output_dir commit_hash hempty
    rcases generate_result_cases env writeOk f output_dir commit_hash with h | h
    · exact h
    · exact absurd hempty h.2.2.1
  · intro env writeOk mkdirOk listOk items removeOk commit_hash output_dir p hp
    rw [export_git_diffs] at hp ⊢
    by_cases hprep : (clear_directory_content mkdirOk listOk items removeOk).1 = false
    · rw [if_pos hprep] at hp
      exact absurd hp (by simp)
    · rw [if_neg hprep] at hp ⊢
      by_cases hfiles : get_changed_files env commit_hash = []
      · rw [if_pos hfiles] at hp
        exact absurd hp (by simp)
      · rw [if_neg hfiles] at hp ⊢
        simp only [List.mem_filterMap] at hp
        obtain ⟨u, hu, husaved⟩ := hp
        obtain ⟨f, _hfmem, hfu⟩ := List.mem_map.mp hu
        rcases generate_result_cases env writeOk f output_dir commit_hash with hc | hc
        · rw [hfu] at hc
          rw [husaved] at hc
          exact absurd hc.1 (by simp)
        · obtain ⟨_, _, hdiffne, _, hrec⟩ := hc
          have hurec : u = ⟨some (diffOutputPath output_dir f),
              [(diffOutputPath output_dir f,
                (run_git_command env (diffCommand commit_hash f)).2.1)],
              [diffCommand commit_hash f]⟩ := hfu.symm.trans hrec
          rw [hurec] at husaved
          simp only [Option.some.injEq] at husaved
          refine ⟨(run_git_command env (diffCommand commit_hash f)).2.1, ?_, hdiffne⟩
          simp only [List.mem_flatten, List.mem_map]
          refine ⟨u.writes, ⟨u, ⟨f, _hfmem, hfu⟩, rfl⟩, ?_⟩
          rw [hurec, ← husaved]
          exact List.mem_singleton.mpr rfl

/-- C6 witness: a file with an empty diff yields no saved path and no write;
in the concrete exporter run, the path returned for `good.py` was written
with its non-empty diff text. -/
theorem export_saved_paths_written_nonempty_witness :
    pyStrip (run_git_command emptyDiffEnv (diffCommand none "a.py")).2.1 = "" ∧
    (generate_and_save_diff emptyDiffEnv (fun _ => true) "a.py" "temp_diffs" none).saved =
      none ∧
    (∃ c, (diffOutputPath "temp_diffs" "good.py", c) ∈
      (export_git_diffs c3Env (fun _ => true) true true [] (fun _ => true)
        none "temp_diffs").writes ∧ pyStrip c ≠ "") :=
  ⟨by decide,
    (export_saved_paths_written_nonempty.1 emptyDiffEnv (fun _ => true) "a.py"
      "temp_diffs" none (by decide)).1,
    export_saved_paths_written_nonempty.2 c3Env (fun _ => true) true true []
      (fun _ => true) none "temp_diffs" (diffOutputPath "temp_diffs" "good.py")
      (by decide)⟩

/-- C1 amended: the engine analyzer (src/_engine/git/analysis.py) satisfies
the claimed contract — it always returns a string (the embedding is total
over every file-read and HTTP outcome, matching the exhaustive exception
handlers): on HTTP 200 it returns `message.content` stripped of surrounding
whitespace, on any other status a string beginning with `"Error:"` that
carries the status code and the response body, and on a missing file, a
request exception or any other exception a string beginning with `"Error:"`.
The src/main.py variant also never lets an exception escape, but its non-200
result is `"Error (<status>) analyzing <file>"` — no `"Error:"` prefix and no
response body — its exception results begin `"Error processing"`, and its 200
result is returned without stripping. -/
theorem analyze_diff_with_llm_contract (model_name diff_file : String)
    (system_prompt : Option String) (fileRead : Option String)
    (fileRead2 : Except String String) (http : HttpOutcome) :
    (∀ d content body, fileRead = some d → http = HttpOutcome.response 200 content body →
      analyze_diff_with_llm model_name diff_file system_prompt fileRead http =
        pyStrip (content.getD "No analysis available")) ∧
    (∀ d status content body, fileRead = some d →
      http = HttpOutcome.response status content body → status ≠ 200 →
      analyze_diff_with_llm model_name diff_file system_prompt fileRead http =
        "Error: API Error (" ++ toString status ++ ") analyzing " ++
          displayFilename diff_file ++ ". Details: " ++ body ∧
      strStarts "Error:"
        (analyze_diff_with_llm model_name diff_file system_prompt fileRead http)) ∧
    (fileRead = none →
      strStarts "Error:"
        (analyze_diff_with_llm model_name diff_file system_prompt fileRead http)) ∧
    (∀ d msg, fileRead = some d →
      (http = HttpOutcome.requestError msg ∨ http = HttpOutcome.otherError msg) →
      strStarts "Error:"
        (analyze_diff_with_llm model_name diff_file system_prompt fileRead http)) ∧
    (∀ d content body, fileRead2 = Except.ok d →
      http = HttpOutcome.response 200 content body →
      main_analyze_diff_with_llm model_name diff_file system_prompt fileRead2 http =
        content.getD "No analysis available") ∧
    (∀ d status content body, fileRead2 = Except.ok d →
      http = HttpOutcome.response status content body → status ≠ 200 →
      main_analyze_diff_with_llm model_name diff_file system_prompt fileRead2 http =
        "Error (" ++ toString status ++ ") analyzing " ++ displayFilename diff_file) ∧
    (∀ msg, fileRead2 = Except.error msg →
      main_analyze_diff_with_llm model_name diff_file system_prompt fileRead2 http =
        "Error processing " ++ diff_file ++ ": " ++ msg) := by
  refine ⟨?_, ?_, ?_, ?_, ?_, ?_, ?_⟩
  · intro d content body hf hh
    subst hf; subst hh
    simp [analyze_diff_with_llm]
  · intro d status content body hf hh hs
    subst hf; subst hh
    simp only [analyze_diff_with_llm, if_neg hs]
    refine ⟨trivial, ?_⟩
    exact strStarts_append_of (strStarts_append_of (strStarts_append_of
      (strStarts_append_of (strStarts_append_of
        ⟨" API Error (", by decide⟩ _) _) _) _) _
  · intro hf
    subst hf
    simp only [analyze_diff_with_llm]
    exact strStarts_append_of ⟨" Diff file not found: ", by decide⟩ _
  · intro d msg hf hor
    subst hf
    rcases hor with h | h <;> subst h <;> simp only [analyze_diff_with_llm]
    · exact strStarts_append_of (strStarts_append_of (strStarts_append_of
        ⟨" Network or API request failed for ", by decide⟩ _) _) _
    · exact strStarts_append_of (strStarts_append_of (strStarts_append_of
        ⟨" An unexpected error occurred processing ", by decide⟩ _) _) _
  · intro d content body hf hh
    subst hf; subst hh
    simp [main_analyze_diff_with_llm]
  · intro d status content body hf hh hs
    subst hf; subst hh
    simp only [main_analyze_diff_with_llm, if_neg hs]
  · intro msg hf
    subst hf
    simp only [main_analyze_diff_with_llm]

/-- C1 counterexample: the `analyze_diff_with_llm` variant in src/main.py
violates the claimed contract at a concrete input — on an HTTP 500 response
it returns `"Error (500) analyzing sample"`, a string that does not begin
with the reserved `"Error:"` prefix and does not contain the response body. -/
theorem main_analyze_error_contract_counterexample :
    main_analyze_diff_with_llm "llama3" "sample_diff.txt" none (Except.ok "diff text")
      (HttpOutcome.response 500 none "server error body") = "Error (500) analyzing sample" ∧
    ¬ strStarts "Error:"
      (main_analyze_diff_with_llm "llama3" "sample_diff.txt" none (Except.ok "diff text")
        (HttpOutcome.response 500 none "server error body")) := by
  refine ⟨by decide, ?_⟩
  intro h
  rw [strStarts_iff] at h
  exact absurd h (by decide)

/-- C1 witness: the engine analyzer's contract applied at concrete inputs —
a 200 response with padded content comes back trimmed, and a 500 response
comes back as an `"Error:"`-prefixed string carrying status and body. -/
theorem analyze_diff_with_llm_contract_witness :
    analyze_diff_with_llm "llama3" "pkg__mod.py_diff.txt" none (some "some diff")
      (HttpOutcome.response 200 (some "  a tidy summary  ") "") = "a tidy summary" ∧
    analyze_diff_with_llm "llama3" "pkg__mod.py_diff.txt" none (some "some diff")
      (HttpOutcome.response 500 none "boom") =
      "Error: API Error (" ++ toString (500 : Nat) ++ ") analyzing " ++
        displayFilename "pkg__mod.py_diff.txt" ++ ". Details: " ++ "boom" ∧
    strStarts "Error:"
      (analyze_diff_with_llm "llama3" "pkg__mod.py_diff.txt" none (some "some diff")
        (HttpOutcome.response 500 none "boom")) := by
  refine ⟨?_, ?_⟩
  · have h := (analyze_diff_with_llm_contract "llama3" "pkg__mod.py_diff.txt" none
      (some "some diff") (Except.ok "some diff")
      (HttpOutcome.response 200 (some "  a tidy summary  ") "")).1
      "some diff" (some "  a tidy summary  ") "" rfl rfl
    rw [h]
    decide
  · exact (analyze_diff_with_llm_contract "llama3" "pkg__mod.py_diff.txt" none
      (some "some diff") (Except.ok "some diff")
      (HttpOutcome.response 500 none "boom")).2.1
      "some diff" 500 none "boom" rfl rfl (by decide)

theorem occursIn_cons {pat : List Char} {c : Char} {s : List Char} :
    occursIn pat (c :: s) ↔ pat <+: (c :: s) ∨ occursIn pat s := by
  constructor
  · rintro ⟨a, b, hab⟩
    cases a with
    | nil =>
      left
      exact ⟨b, by simpa using hab.symm⟩
    | cons x a =>
      right
      refine ⟨a, b, ?_⟩
      simpa using congrArg List.tail hab
  · rintro (⟨t, ht⟩ | ⟨a, b, hab⟩)
    · exact ⟨[], t, by simpa using ht.symm⟩
    · exact ⟨c :: a, b, by simp [hab]⟩

theorem occursIn_iff_containsB (pat s : List Char) :
    occursIn pat s ↔ containsB pat s = true := by
  induction s with
  | nil =>
    simp only [containsB, List.isEmpty_iff]
    constructor
    · rintro ⟨a, b, hab⟩
      rcases List.append_eq_nil.mp hab.symm with ⟨h1, h2⟩
      exact (List.append_eq_nil.mp h1).2
    · rintro rfl
      exact ⟨[], [], rfl⟩
  | cons c rest ih =>
    rw [occursIn_cons, containsB, Bool.or_eq_true, List.isPrefixOf_iff_prefix, ih]

theorem occursIn_of_tail {pat : List Char} {c : Char} {s : List Char}
    (h : occursIn pat s) : occursIn pat (c :: s) :=
  occursIn_cons.mpr (Or.inr h)

theorem not_prefix_append_of_borderless {pat xs : List Char}
    (hb : Borderless pat) (hno : ¬ occursIn pat xs) (hxs : xs ≠ []) :
    ¬ pat <+: (xs ++ pat) := by
  intro hp
  rw [List.prefix_iff_eq_take] at hp
  rcases le_or_lt pat.length xs.length with hle | hlt
  · apply hno
    rw [List.take_append_of_le_length hle] at hp
    refine ⟨[], xs.drop pat.length, ?_⟩
    conv_lhs => rw [← List.take_append_drop pat.length xs]
    rw [← hp]
    simp
  · have hm : 0 < xs.length := List.length_pos.mpr hxs
    have hsplit : pat = xs ++ pat.take (pat.length - xs.length) := by
      have harith : xs.length + (pat.length - xs.length) = pat.length := by omega
      conv_lhs => rw [hp]
      rw [← harith, List.take_append]
      have harith3 : xs.length + (pat.length - xs.length) - xs.length =
          pat.length - xs.length := by omega
      rw [harith3]
    have hk1 : pat.length - xs.length < pat.length := by omega
    have hk2 : 0 < pat.length - xs.length := by omega
    apply hb (pat.length - xs.length) hk1 hk2
    have hdrop : pat.drop xs.length = pat.take (pat.length - xs.length) := by
      conv_lhs => rw [hsplit]
      exact List.drop_left xs _
    have harith2 : pat.length - (pat.length - xs.length) = xs.length := by omega
    rw [harith2]
    exact hdrop.symm

theorem replaceFuel_append_self {pat repl : List Char} (hpat : pat ≠ [])
    (hb : Borderless pat) :
    ∀ (xs : List Char) (fuel : Nat), xs.length + pat.length ≤ fuel →
      ¬ occursIn pat xs → replaceFuel pat repl fuel (xs ++ pat) = xs ++ repl := by
  intro xs
  induction xs with
  | nil =>
    intro fuel hfuel _
    cases pat with
    | nil => exact absurd rfl hpat
    | cons p0 prest =>
      cases fuel with
      | zero => simp at hfuel
      | succ f =>
        rw [List.nil_append, replaceFuel]
        rw [if_pos ⟨hpat, List.isPrefixOf_iff_prefix.mpr (List.prefix_refl _)⟩]
        have hdrop : prest.drop ((p0 :: prest).length - 1) = [] := by
          simp
        rw [hdrop]
        simp [replaceFuel]
  | cons c xs ih =>
    intro fuel hfuel hno
    cases fuel with
    | zero => simp at hfuel
    | succ f =>
      rw [List.cons_append, replaceFuel]
      rw [if_neg ?hneg]
      case hneg =>
        rintro ⟨-, hpre⟩
        rw [ List.isPrefixOf_iff_prefix] at hpre
        rw [← List.cons_append] at hpre
        exact not_prefix_append_of_borderless hb hno (by simp) hpre
      rw [ih f (by simp only [List.length_cons] at hfuel; omega)
        (fun h => hno (occursIn_of_tail h))]
      simp

theorem replaceFuel_slash :
    ∀ (p : List Char) (fuel : Nat), p.length ≤ fuel →
      replaceFuel ['/'] ['_', '_'] fuel p = encB p := by
  intro p
  induction p with
  | nil => intro fuel _; cases fuel <;> rfl
  | cons c rest ih =>
    intro fuel hfuel
    cases fuel with
    | zero => simp at hfuel
    | succ f =>
      rw [replaceFuel, encB]
      by_cases hc : c = '/'
      · rw [if_pos ⟨by simp, by simp [List.isPrefixOf, hc]⟩, if_pos hc]
        have hd : rest.drop ((['/'] : List Char).length - 1) = rest := by norm_num
        rw [hd, ih f (by simp only [List.length_cons] at hfuel; omega)]
        rfl
      · rw [if_neg (by rintro ⟨-, hpre⟩; simp [List.isPrefixOf] at hpre; exact hc hpre.symm),
          if_neg hc]
        rw [ih f (by simp only [List.length_cons] at hfuel; omega)]

theorem sepSafeB_tail {a : Char} {p : List Char} (h : sepSafeB (a :: p) = true) :
    sepSafeB p = true := by
  cases p with
  | nil => rfl
  | cons b rest =>
    rw [sepSafeB] at h
    by_cases hc : a = '_' ∧ (b = '_' ∨ b = '/')
    · rw [if_pos hc] at h
      exact absurd h (by simp)
    · rwa [if_neg hc] at h

theorem sepSafeB_underscore {d : Char} {p : List Char}
    (h : sepSafeB ('_' :: d :: p) = true) : d ≠ '_' ∧ d ≠ '/' := by
  rw [sepSafeB] at h
  by_cases hc : ('_' : Char) = '_' ∧ (d = '_' ∨ d = '/')
  · rw [if_pos hc] at h
    exact absurd h (by simp)
  · constructor
    · intro hd
      exact hc ⟨rfl, Or.inl hd⟩
    · intro hd
      exact hc ⟨rfl, Or.inr hd⟩

theorem replaceFuel_decode :
    ∀ (p : List Char) (fuel : Nat), (encB p).length ≤ fuel → sepSafeB p = true →
      replaceFuel ['_', '_'] ['/'] fuel (encB p) = p := by
  intro p
  induction p with
  | nil => intro fuel _ _; cases fuel <;> rfl
  | cons c rest ih =>
    intro fuel hfuel hsafe
    by_cases hc : c = '/'
    · subst hc
      rw [encB, if_pos rfl] at hfuel ⊢
      cases fuel with
      | zero => simp at hfuel
      | succ f =>
        rw [replaceFuel, if_pos ⟨by simp, by simp [List.isPrefixOf]⟩]
        simp only [List.length_cons, List.length_nil]
        rw [(rfl : ('_' :: encB rest).drop (2 - 1) = ('_' :: encB rest).drop 1)]
        rw [List.drop_one, List.tail_cons]
        rw [ih f (by simp only [List.length_cons] at hfuel; omega) (sepSafeB_tail hsafe)]
        rfl
    · rw [encB, if_neg hc] at hfuel ⊢
      cases fuel with
      | zero => simp at hfuel
      | succ f =>
        rw [replaceFuel]
        rw [if_neg ?hneg]
        case hneg =>
          rintro ⟨-, hpre⟩
          rw [ List.isPrefixOf_iff_prefix, List.cons_prefix_cons] at hpre
          obtain ⟨hc1, hpre2⟩ := hpre
          subst hc1
          cases hrest : rest with
          | nil =>
            rw [hrest] at hpre2
            simp [encB] at hpre2
          | cons d rest2 =>
            rw [hrest] at hpre2 hsafe
            obtain ⟨hd1, hd2⟩ := sepSafeB_underscore hsafe
            rw [encB, if_neg hd2, List.cons_prefix_cons] at hpre2
            exact hd1 hpre2.1.symm
        rw [ih f (by simp only [List.length_cons] at hfuel; omega) (sepSafeB_tail hsafe)]

theorem prefix_encB_transfer {q : List Char} (hq : ∀ c ∈ q, c ≠ '/' ∧ c ≠ '_') :
    ∀ p : List Char, q <+: encB p → q <+: p := by
  induction q with
  | nil => intro p _; exact List.nil_prefix
  | cons d q ih =>
    intro p hpre
    obtain ⟨hd1, hd2⟩ := hq d (List.mem_cons_self d q)
    cases p with
    | nil =>
      rw [encB] at hpre
      exact absurd (List.prefix_nil.mp hpre) (by simp)
    | cons e p2 =>
      rw [encB] at hpre
      by_cases he : e = '/'
      · rw [if_pos he, List.cons_prefix_cons] at hpre
        exact absurd hpre.1 hd2
      · rw [if_neg he, List.cons_prefix_cons] at hpre
        rw [List.cons_prefix_cons]
        exact ⟨hpre.1, ih (fun c hc => hq c (List.mem_cons_of_mem d hc)) p2 hpre.2⟩

theorem tq_chars : ∀ c ∈ "diff.txt".data, c ≠ '/' ∧ c ≠ '_' := by decide

theorem tq_head : "diff.txt".data = 'd' :: "iff.txt".data := by decide

theorem occursIn_encB {p : List Char}
    (h9 : ¬ occursIn dPat p) (hS : ¬ occursIn sPat p) : ¬ occursIn dPat (encB p) := by
  induction p with
  | nil =>
    rw [(rfl : encB [] = [])]
    rw [occursIn_iff_containsB]
    decide
  | cons c rest ih =>
    have h9r : ¬ occursIn dPat rest := fun h => h9 (occursIn_of_tail h)
    have hSr : ¬ occursIn sPat rest := fun h => hS (occursIn_of_tail h)
    have ihr := ih h9r hSr
    intro hocc
    by_cases hc : c = '/'
    · subst hc
      rw [encB, if_pos rfl] at hocc
      rcases occursIn_cons.mp hocc with hpre | htail
      · rw [dPat, List.cons_prefix_cons, tq_head] at hpre
        rw [List.cons_prefix_cons] at hpre
        exact absurd hpre.2.1 (by decide)
      · rcases occursIn_cons.mp htail with h2pre | h2tail
        · rw [dPat, List.cons_prefix_cons] at h2pre
          have htr : "diff.txt".data <+: rest :=
            prefix_encB_transfer tq_chars rest h2pre.2
          apply hS
          exact occursIn_cons.mpr (Or.inl
            (List.cons_prefix_cons.mpr ⟨rfl, htr⟩))
        · exact ihr h2tail
    · rw [encB, if_neg hc] at hocc
      rcases occursIn_cons.mp hocc with hpre | htail
      · rw [dPat, List.cons_prefix_cons] at hpre
        have htr : "diff.txt".data <+: rest :=
          prefix_encB_transfer tq_chars rest hpre.2
        apply h9
        refine occursIn_cons.mpr (Or.inl ?_)
        rw [dPat, List.cons_prefix_cons]
        exact ⟨hpre.1, htr⟩
      · exact ihr htail

theorem dPat_borderless : Borderless dPat := by
  have h9 : dPat.length = 9 := by decide
  intro k hk hpos
  rw [h9] at hk
  interval_cases k <;> decide

theorem encodeDecodeList (p : List Char) (h1 : sepSafeB p = true)
    (h2 : ¬ occursIn dPat p) (h3 : ¬ occursIn sPat p) :
    replaceList ['_', '_'] ['/'] (replaceList dPat [] (encB p ++ dPat)) = p := by
  have hstep1 : replaceList dPat [] (encB p ++ dPat) = encB p := by
    rw [replaceList]
    have hlen : (encB p ++ dPat).length = (encB p).length + dPat.length := by
      simp
    rw [hlen]
    rw [replaceFuel_append_self (by decide) dPat_borderless (encB p)
      ((encB p).length + dPat.length) le_rfl (occursIn_encB h2 h3)]
    exact List.append_nil _
  rw [hstep1, replaceList]
  exact replaceFuel_decode p (encB p).length le_rfl h1

/-- C2 amended: the diff-file name round-trips — encoding on export (replace
each path separator with a double underscore, append `_diff.txt`) followed by
decoding during analysis (strip `_diff.txt`, replace each double underscore
with a separator) returns the original path — for every nested path that
contains no doubled underscore, no underscore immediately before a separator,
and neither `_diff.txt` nor `/diff.txt` as a substring.  Outside these
conditions the encoding is lossy, see the counterexample. -/
theorem diff_name_roundtrip (p : String) (hnested : '/' ∈ p.data)
    (h1 : sepSafeB p.data = true) (h2 : containsB dPat p.data = false)
    (h3 : containsB sPat p.data = false) :
    decodeDisplayName (encodeDiffName p) = p := by
  have h2p : ¬ occursIn dPat p.data := by
    rw [occursIn_iff_containsB, h2]
    simp
  have h3p : ¬ occursIn sPat p.data := by
    rw [occursIn_iff_containsB, h3]
    simp
  apply String.ext
  have henc : (encodeDiffName p).data = encB p.data ++ dPat := by
    rw [encodeDiffName, String.data_append]
    congr 1
    · show (replaceList ("/").data ("__").data p.data) = encB p.data
      rw [show ("/").data = ['/'] from by decide,
        show ("__").data = ['_', '_'] from by decide, replaceList]
      exact replaceFuel_slash p.data p.data.length le_rfl
  have hdec : (decodeDisplayName (encodeDiffName p)).data =
      replaceList ("__").data ("/").data
        (replaceList ("_diff.txt").data ("").data (encodeDiffName p).data) := rfl
  rw [hdec, show ("__").data = ['_', '_'] from by decide,
    show ("/").data = ['/'] from by decide,
    show ("_diff.txt").data = dPat from by decide,
    show ("").data = ([] : List Char) from by decide, henc]
  exact encodeDecodeList p.data h1 h2p h3p

/-- C2 counterexample: the round-trip fails for a nested path that already
contains a double underscore — `src/pkg__x.py` encodes to
`src__pkg__x.py_diff.txt`, which decodes to `src/pkg/x.py`. -/
theorem diff_name_roundtrip_counterexample :
    '/' ∈ ("src/pkg__x.py").data ∧
    decodeDisplayName (encodeDiffName "src/pkg__x.py") = "src/pkg/x.py" ∧
    decodeDisplayName (encodeDiffName "src/pkg__x.py") ≠ "src/pkg__x.py" := by
  refine ⟨by decide, by decide, by decide⟩

/-- C2 witness: the amended round-trip applied to the nested path
`src/pkg/a.py`. -/
theorem diff_name_roundtrip_witness :
    sepSafeB ("src/pkg/a.py").data = true ∧
    decodeDisplayName (encodeDiffName "src/pkg/a.py") = "src/pkg/a.py" :=
  ⟨by decide,
    diff_name_roundtrip "src/pkg/a.py" (by decide) (by decide) (by decide) (by decide)⟩

/-- C5 witness: in the concrete environment the unstaged listing contributes
`good.py`, so it is a member of the returned list even though the staged
listing is empty, and the returned list is non-empty. -/
theorem get_changed_files_uncommitted_union_witness :
    "good.py" ∈ get_changed_files c3Env none ∧ get_changed_files c3Env none ≠ [] := by
  have h := get_changed_files_uncommitted_union c3Env
  refine ⟨(h.2.2.1 "good.py").mpr ⟨Or.inr (by decide), by decide⟩, ?_⟩
  intro hnil
  exact absurd (h.2.2.2.mp hnil "good.py" (Or.inr (by decide))) (by decide)

/-- C10 witness: the True return applied to a directory whose only entry
fails to be removed, and the False return when `os.listdir` fails. -/
theorem clear_directory_content_true_despite_failures_witness :
    (clear_directory_content true true ["stuck.txt"] (fun _ => false)).1 = true ∧
    (clear_directory_content true false ["stuck.txt"] (fun _ => true)).1 = false := by
  refine ⟨clear_directory_content_true_despite_failures.1 ["stuck.txt"] (fun _ => false), ?_⟩
  have h := clear_directory_content_true_despite_failures.2.1 true false ["stuck.txt"]
    (fun _ => true)
  cases hb : (clear_directory_content true false ["stuck.txt"] (fun _ => true)).1 with
  | false => rfl
  | true => exact absurd (h.mp hb).2 (by decide)
